import Mathlib

set_option maxRecDepth 8192

/-!
Verification of the tmigo Twitch-IRC client library.

Strings from the Go source are modelled as lists of characters (`Str`);
Go byte indexing coincides with character indexing on the ASCII data
these claims concern.  Go `map[string]any` tag maps are modelled as
association lists in which `setTag` overwrites in place, matching Go map
assignment; lookups are what the theorems observe, so the (unspecified)
Go iteration order is never relied upon.
-/

namespace Tmigo

abbrev Str := List Char

/-- Go `strings.Split(s, sep)` for a one-character separator: always
returns at least one (possibly empty) piece. -/
def splitOnChar (sep : Char) : Str → List Str
  | [] => [[]]
  | c :: rest =>
    if c = sep then [] :: splitOnChar sep rest
    else
      match splitOnChar sep rest with
      | [] => [[c]]
      | p :: ps => (c :: p) :: ps

/-- Index of the last occurrence of `c` (Go `strings.LastIndex` with a
one-character needle), `none` when absent. -/
def lastIndexOf (c : Char) : Str → Option Nat
  | [] => none
  | x :: xs =>
    match lastIndexOf c xs with
    | some i => some (i + 1)
    | none => if x = c then some 0 else none

/-- Go `strconv.Atoi`: optional sign followed by at least one decimal
digit and nothing else (the claims only use values far below overflow). -/
def atoi (s : Str) : Option Int :=
  let digits (l : Str) : Option Int :=
    if l = [] ∨ ¬ l.all (·.isDigit) then none
    else some (l.foldl (fun acc c => acc * 10 + (c.toNat - 48 : Int)) 0)
  match s with
  | '-' :: rest => (digits rest).map (fun n => -n)
  | '+' :: rest => digits rest
  | _ => digits s

/-- A tag value as stored in the Go `map[string]any` tag map: boolean,
string, nil, a decoded `map[string]any` (badges and the like), or a
decoded `[][]int` position list (emotes). -/
inductive TagVal where
  | b : Bool → TagVal
  | s : Str → TagVal
  | null : TagVal
  | tagMap : List (Str × TagVal) → TagVal
  | positions : List (Int × Int) → TagVal
deriving Repr

abbrev TagMap := List (Str × TagVal)

def lookupTag : TagMap → Str → Option TagVal
  | [], _ => none
  | (k, v) :: rest, key => if k = key then some v else lookupTag rest key

/-- Go map assignment `tags[key] = v`: overwrite in place, else append. -/
def setTag : TagMap → Str → TagVal → TagMap
  | [], key, v => [(key, v)]
  | (k, w) :: rest, key, v =>
    if k = key then (k, v) :: rest else (k, w) :: setTag rest key v

/-- `IRCMessage` from parser.go (the `Prefix` field is renamed `pfx`
because `prefix` is a Lean keyword). -/
structure IRCMessage where
  raw : Str
  tags : TagMap
  pfx : Str
  command : Str
  params : List Str
deriving Repr

/-- One iteration of the tag loop in `ParseMessage` (parser.go lines
33-46): a piece with no `=` or an empty value becomes boolean true,
otherwise the string value is stored. -/
def parseTagItem (tags : TagMap) (tag : Str) : TagMap :=
  match tag.dropWhile (· != '=') with
  | [] => setTag tags tag (.b true)
  | _ :: v =>
    let key := tag.takeWhile (· != '=')
    if v = [] then setTag tags key (.b true) else setTag tags key (.s v)

/-- The parameter loop of `ParseMessage` (parser.go lines 93-114): a
token starting with `:` consumes the rest of the line, otherwise tokens
run to the next space, with runs of spaces skipped between tokens. -/
def parseParams : Str → List Str
  | [] => []
  | c :: rest =>
    if c = ':' then [rest]
    else
      let before := (c :: rest).takeWhile (· != ' ')
      match h : (c :: rest).dropWhile (· != ' ') with
      | [] => [c :: rest]
      | _ :: after => before :: parseParams (after.dropWhile (· == ' '))
termination_by l => l.length
decreasing_by
  have h1 : (after.dropWhile (· == ' ')).length ≤ after.length :=
    (List.dropWhile_suffix _).length_le
  have h2 : ((c :: rest).dropWhile (· != ' ')).length ≤ (c :: rest).length :=
    (List.dropWhile_suffix _).length_le
  rw [h] at h2
  simp only [List.length_cons] at h2 ⊢
  omega

/-- `ParseMessage` from parser.go: decodes one IRC line, returning
`none` for the empty line or when a tag block or prefix block is never
terminated by a space. -/
def ParseMessage (data : Str) : Option IRCMessage :=
  if data = [] then none
  else
    let step1 : Option (TagMap × Str) :=
      match data with
      | '@' :: t =>
        -- `strings.Index(data, " ")`: '@' is not a space, so searching
        -- the tail is equivalent; `none` when the line has no space.
        match t.dropWhile (· != ' ') with
        | [] => none
        | _ :: rest =>
          some ((splitOnChar ';' (t.takeWhile (· != ' '))).foldl parseTagItem [], rest)
      | _ => some ([], data)
    match step1 with
    | none => none
    | some (tags, r1) =>
      -- skip trailing whitespace
      let r1 := r1.dropWhile (· == ' ')
      let step2 : Option (Str × Str) :=
        match r1 with
        | ':' :: t =>
          match t.dropWhile (· != ' ') with
          | [] => none
          | _ :: rest => some (t.takeWhile (· != ' '), rest.dropWhile (· == ' '))
        | _ => some ([], r1)
      match step2 with
      | none => none
      | some (pfx, r2) =>
        match r2.dropWhile (· != ' ') with
        | [] =>
          -- no further space: the remainder (if any) is the command
          if r2 = [] then none
          else some ⟨data, tags, pfx, r2, []⟩
        | _ :: r3 =>
          some ⟨data, tags, pfx, r2.takeWhile (· != ' '), parseParams (r3.dropWhile (· == ' '))⟩

/-- `parseComplexTag` from parser.go (lines 134-199), the generic decoder
behind badges, badge-info and emotes.  The Go separators are strings but
every call site passes a one-character separator (or `""` for `splC`,
modelled as `none`). -/
def parseComplexTag (tags : TagMap) (tagKey : Str) (splA splB : Char)
    (splC : Option Char) : TagMap :=
  match lookupTag tags tagKey with
  | none => tags
  | some raw =>
    let tags1 :=
      match raw with
      | .s rawStr => setTag tags (tagKey ++ "-raw".toList) (.s rawStr)
      | _ => setTag tags (tagKey ++ "-raw".toList) .null
    match raw with
    | .b true => setTag tags1 tagKey .null
    | .s rawStr =>
      let result := (splitOnChar splA rawStr).foldl (fun res part =>
        let subParts := splitOnChar splB part
        let key := subParts.headI
        let value : Option TagVal :=
          match subParts with
          | _ :: val :: _ =>
            match splC with
            | some c =>
              if val ≠ [] then
                some (.positions ((splitOnChar c val).filterMap (fun pos =>
                  match splitOnChar '-' pos with
                  | [a, b] =>
                    match atoi a, atoi b with
                    | some x, some y => some (x, y)
                    | _, _ => none
                  | _ => none)))
              else some (.s val)
            | none => some (.s val)
          | _ => none
        match value with
        | none => setTag res key .null
        | some (.s []) => setTag res key .null
        | some v => setTag res key v) []
      setTag tags1 tagKey (.tagMap result)
    | _ => setTag tags1 tagKey (.tagMap [])

/-- `ParseBadges` from parser.go. -/
def ParseBadges (tags : TagMap) : TagMap :=
  parseComplexTag tags "badges".toList ',' '/' none

/-- `ParseBadgeInfo` from parser.go. -/
def ParseBadgeInfo (tags : TagMap) : TagMap :=
  parseComplexTag tags "badge-info".toList ',' '/' none

/-- `ParseEmotes` from parser.go. -/
def ParseEmotes (tags : TagMap) : TagMap :=
  parseComplexTag tags "emotes".toList '/' ':' (some ',')

/-- The `ircEscapedChars` table from the source: escape letter to
replacement string (`\n` and `\r` decode to the empty string). -/
def ircEscapedChar (c : Char) : Option Str :=
  if c = 's' then some [' ']
  else if c = 'n' then some []
  else if c = ':' then some [';']
  else if c = 'r' then some []
  else if c = '\\' then some ['\\']
  else none

/-- The `ircUnescapedChars` table from the source: character to escape
letter. -/
def ircUnescapedChar (c : Char) : Option Char :=
  if c = ' ' then some 's'
  else if c = '\n' then some 'n'
  else if c = ';' then some ':'
  else if c = '\r' then some 'r'
  else if c = '\\' then some '\\'
  else none

/-- The character loop of `UnescapeIRC`, with its `escaped` flag. -/
def unescapeLoop : Str → Bool → Str
  | [], _ => []
  | c :: rest, true =>
    match ircEscapedChar c with
    | some rep => rep ++ unescapeLoop rest false
    | none => c :: unescapeLoop rest false
  | c :: rest, false =>
    if c = '\\' then unescapeLoop rest true
    else c :: unescapeLoop rest false

/-- `UnescapeIRC` from the source: returns the input unchanged when it is
empty or contains no backslash, otherwise runs the escape loop. -/
def UnescapeIRC (msg : Str) : Str :=
  if msg = [] ∨ ¬ msg.contains '\\' then msg else unescapeLoop msg false

/-- One character of the `EscapeIRC` loop. -/
def escapeChar (c : Char) : Str :=
  match ircUnescapedChar c with
  | some e => ['\\', e]
  | none => [c]

/-- `EscapeIRC` from the source. -/
def EscapeIRC (msg : Str) : Str :=
  if msg = [] then msg else msg.foldr (fun c acc => escapeChar c ++ acc) []

/-- Go `unicode.IsSpace` restricted to the Latin-1 range (the claims and
counterexamples use only these characters): space, \t, \n, \v, \f, \r,
NEL (U+0085) and NBSP (U+00A0). -/
def goIsSpace (c : Char) : Bool :=
  c.toNat == 32 || c.toNat == 9 || c.toNat == 10 || c.toNat == 11 ||
  c.toNat == 12 || c.toNat == 13 || c.toNat == 133 || c.toNat == 160

/-- Go `strings.ToLower` on one character, restricted to ASCII (Go also
folds non-ASCII letters; the identifiers in the claims are ASCII). -/
def goToLowerChar (c : Char) : Char :=
  if 65 ≤ c.toNat ∧ c.toNat ≤ 90 then Char.ofNat (c.toNat + 32) else c

/-- Go `strings.ToLower` (ASCII fragment). -/
def goToLower (l : Str) : Str := l.map goToLowerChar

/-- Go `strings.TrimSpace`: remove leading and trailing whitespace. -/
def goTrimSpace (l : Str) : Str :=
  List.rdropWhile goIsSpace (l.dropWhile goIsSpace)

/-- `Channel` from the utils file: lower-case, trim, and ensure a single
leading `#` marker (empty input becomes just `"#"`). -/
def Channel (str : Str) : Str :=
  let channel := goToLower (goTrimSpace str)
  if channel = [] then ['#']
  else if channel.head? = some '#' then channel
  else '#' :: channel

/-- `Username` from the utils file: lower-case, trim, and strip one
leading `#` marker. -/
def Username (str : Str) : Str :=
  let username := goToLower (goTrimSpace str)
  if username = [] then []
  else if username.head? = some '#' then username.tail
  else username

/-- `IsJustinfan` from the utils file: matches the anchored regular
expression `^(justinfan)(\d+$)`. -/
def IsJustinfan (username : Str) : Bool :=
  "justinfan".toList.isPrefixOf username &&
  !(username.drop 9).isEmpty && (username.drop 9).all (·.isDigit)

/-- The tag-normalization loop body of `handleMessage` (types.go, the
`for key, value := range message.Tags` loop): the three hard-coded tag
names are skipped; boolean true becomes nil; the strings `"1"`/`"0"`
become booleans; every other string is unescaped; all other values are
left alone. -/
def transformTagValue (key : Str) (value : TagVal) : TagVal :=
  if key = "emote-sets".toList ∨ key = "ban-duration".toList ∨
      key = "bits".toList then value
  else
    match value with
    | .b true => .null
    | .s v =>
      if v = "1".toList then .b true
      else if v = "0".toList then .b false
      else .s (UnescapeIRC v)
    | v => v

/-- The whole tag-normalization pass of `handleMessage` applied to a tag
map (the Go loop mutates each entry of the map in place). -/
def transformTags (tags : TagMap) : TagMap :=
  tags.map (fun kv => (kv.1, transformTagValue kv.1 kv.2))

/-- `Queue` from queue.go.  The queued function is opaque, so the element
type is a parameter; an item is the pair of its action and its delay
(`0` meaning "no explicit delay given", as in the Go zero value). -/
structure Queue (α : Type) where
  queue : List (α × Nat)
  index : Nat
  defaultDelay : Nat

/-- `NewQueue` from queue.go (`3 * time.Second` in nanoseconds). -/
def NewQueue (α : Type) (defaultDelay : Nat) : Queue α :=
  { queue := [], index := 0,
    defaultDelay := if defaultDelay = 0 then 3000000000 else defaultDelay }

/-- `Queue.Add` from queue.go: append an item, optional explicit delay. -/
def Queue.Add (q : Queue α) (fn : α) (delay : Option Nat) : Queue α :=
  { q with queue := q.queue ++ [(fn, delay.getD 0)] }

/-- `Queue.Next` from queue.go as a pure step: returns the new queue
state, the action executed (if any), and the delay after which the next
advance was scheduled (`none` when no timer was armed). -/
def Queue.Next (q : Queue α) : Queue α × Option α × Option Nat :=
  if h : q.index < q.queue.length then
    let item := q.queue.get ⟨q.index, h⟩
    if h2 : q.index + 1 < q.queue.length then
      let nextItem := q.queue.get ⟨q.index + 1, h2⟩
      ({ q with index := q.index + 1 }, some item.1,
        some (if nextItem.2 = 0 then q.defaultDelay else nextItem.2))
    else
      ({ q with index := q.index + 1 }, some item.1, none)
  else (q, none, none)

/-- Iterating `Next` `n` times (the timer-driven self-advance chain),
collecting the executed actions in order; stops early at a no-op. -/
def Queue.runNext : Queue α → Nat → Queue α × List α
  | q, 0 => (q, [])
  | q, n + 1 =>
    match q.Next with
    | (q', some fn, _) =>
      let r := Queue.runNext q' n
      (r.1, fn :: r.2)
    | (q', none, _) => (q', [])

/-- `EventEmitter` from the event-emitter file; handlers are opaque
(functions are not comparable in Go either), so the handler type is a
parameter.  The Go `map[string][]EventHandler` is an association list. -/
structure EventEmitter (α : Type) where
  events : List (Str × List α)
  maxListeners : Nat

def lookupEvents : List (Str × List α) → Str → Option (List α)
  | [], _ => none
  | (k, v) :: rest, key => if k = key then some v else lookupEvents rest key

def setEvents : List (Str × List α) → Str → List α → List (Str × List α)
  | [], key, v => [(key, v)]
  | (k, w) :: rest, key, v =>
    if k = key then (k, v) :: rest else (k, w) :: setEvents rest key v

/-- Go `delete(e.events, eventType)` (a Go map holds one entry per key;
the association-list model removes every entry with the key). -/
def delEvents : List (Str × List α) → Str → List (Str × List α)
  | [], _ => []
  | (k, v) :: rest, key =>
    if k = key then delEvents rest key else (k, v) :: delEvents rest key

/-- `NewEventEmitter`. -/
def NewEventEmitter (α : Type) : EventEmitter α := ⟨[], 0⟩

/-- `EventEmitter.On`: ensure the key exists, refuse when the listener
cap is reached, otherwise append the listener. -/
def EventEmitter.On (e : EventEmitter α) (eventType : Str) (listener : α) :
    EventEmitter α :=
  let cur := (lookupEvents e.events eventType).getD []
  if 0 < e.maxListeners ∧ e.maxListeners ≤ cur.length then
    { e with events := setEvents e.events eventType cur }
  else
    { e with events := setEvents e.events eventType (cur ++ [listener]) }

/-- `EventEmitter.RemoveListener`: Go cannot compare functions, so the
source deletes every listener registered under the event type. -/
def EventEmitter.RemoveListener (e : EventEmitter α) (eventType : Str)
    (listener : α) : EventEmitter α :=
  match lookupEvents e.events eventType with
  | none => e
  | some _ => { e with events := delEvents e.events eventType }

/-- `EventEmitter.Off` is an alias for `RemoveListener`. -/
def EventEmitter.Off (e : EventEmitter α) (eventType : Str) (listener : α) :
    EventEmitter α :=
  e.RemoveListener eventType listener

/-- `EventEmitter.ListenerCount`. -/
def EventEmitter.ListenerCount (e : EventEmitter α) (eventType : Str) : Nat :=
  match lookupEvents e.events eventType with
  | none => 0
  | some ls => ls.length

/-- `GlobalUserState` from types.go (its Go zero value is the cleared
state `handleError` resets to). -/
structure GlobalUserState where
  badgeInfo : List (Str × Str)
  badges : List (Str × Str)
  color : Str
  displayName : Str
  emoteSets : Str
  userID : Str
  userType : Str
  badgeInfoRaw : Str
  badgesRaw : Str
deriving DecidableEq

/-- The Go zero value `GlobalUserState{}`. -/
def emptyGlobalUserState : GlobalUserState := ⟨[], [], [], [], [], [], [], [], []⟩

/-- `UserState` from types.go. -/
structure UserState where
  badgeInfo : List (Str × Str)
  badges : List (Str × Str)
  color : Str
  displayName : Str
  emoteSets : Str
  mod : Bool
  subscriber : Bool
  userType : Str
  badgeInfoRaw : Str
  badgesRaw : Str
  username : Str
deriving DecidableEq

/-- The fields of `clientState` (client.go / types.go) that the failure
path `handleError` reads or writes.  A Go timer pointer is `none` when
nil and `some running` otherwise; `ws` is modelled by `wsConnected`. -/
structure ClientState where
  wsConnected : Bool
  reconnecting : Bool
  reconnections : Nat
  reconnectTimer : Nat
  wasCloseCalled : Bool
  reason : Str
  pingLoop : Option Bool
  pingTimeout : Option Bool
  maxReconnectAttempts : Nat
  reconnect : Bool
  moderators : List (Str × List Str)
  userState : List (Str × UserState)
  globalUserState : GlobalUserState

/-- `timer.Stop()` guarded by a nil check, as in handleError. -/
def stopTimer (t : Option Bool) : Option Bool := t.map (fun _ => false)

/-- The events handleError can emit, in order. -/
inductive ClientEvent where
  | disconnected (reason : Str)
  | reconnect
  | maxreconnect
deriving DecidableEq

/-- The disconnect reason computed by handleError (client.go lines
269-272); `err` is `none` for a clean closure. -/
def disconnectReason (err : Option Str) : Str :=
  match err with
  | none => "Connection closed.".toList
  | some e => "Unable to connect: ".toList ++ e

/-- `handleError` from client.go (lines 257-294) as a pure transition:
returns the new state, the emitted events in order, and the delay after
which a new `Connect` was scheduled (`none` when no retry is armed). -/
def handleError (err : Option Str) (s : ClientState) :
    ClientState × List ClientEvent × Option Nat :=
  let s1 : ClientState :=
    { s with
      moderators := []
      userState := []
      globalUserState := emptyGlobalUserState
      pingLoop := stopTimer s.pingLoop
      pingTimeout := stopTimer s.pingTimeout
      reason := disconnectReason err }
  if s1.reconnect = true ∧ s1.reconnections < s1.maxReconnectAttempts ∧
      s1.wasCloseCalled = false then
    ({ s1 with
        reconnecting := true
        reconnections := s1.reconnections + 1
        wsConnected := false },
     [.disconnected (disconnectReason err), .reconnect],
     some s1.reconnectTimer)
  else if s1.maxReconnectAttempts ≤ s1.reconnections then
    ({ s1 with wsConnected := false },
     [.disconnected (disconnectReason err), .maxreconnect], none)
  else
    ({ s1 with wsConnected := false },
     [.disconnected (disconnectReason err)], none)

/-- The connection-relevant fields read by the outbound send helpers:
`isConnected` (`ws != nil`), the session username, and the global default
channel used by `Whisper`. -/
structure Conn where
  connected : Bool
  username : Str
  globalDefaultChannel : Str
deriving DecidableEq

/-- An outbound socket frame: `"%sPRIVMSG %s :%s"` or a bare command,
kept structured so theorems can speak about the message text. -/
inductive Frame where
  | privmsg (tagStr : Str) (channel : Str) (text : Str)
  | raw (tagStr : Str) (command : Str)
deriving DecidableEq

def frameText : Frame → Str
  | .privmsg _ _ t => t
  | .raw _ c => c

/-- `FormTags` from parser.go (the Go map iteration order is unspecified;
the association-list order stands in for it). -/
def FormTags (tags : List (Str × Str)) : Str :=
  if tags = [] then []
  else '@' :: List.intercalate ";".toList
    (tags.map fun kv => EscapeIRC kv.1 ++ '=' :: EscapeIRC kv.2)

/-- The `tagStr` preamble computed by the send helpers (`none` models an
absent / nil variadic `tags` argument). -/
def tagStrOf (tags : Option (List (Str × Str))) : Str :=
  match tags with
  | some t => if FormTags t = [] then [] else FormTags t ++ [' ']
  | none => []

/-- The split point of `sendMessage` for an over-long message: the last
space within the first 500 characters, or 500 when there is none
(`lastSpace` in the source). -/
def splitPoint (message : Str) : Nat :=
  match lastIndexOf ' ' (message.take 500) with
  | some i => i
  | none => 500

/-- `Client.sendMessage` from the command file: fails when not connected
or anonymous; splits messages longer than 500 characters at `splitPoint`
and recurses on both halves (the source normalizes the channel once and
passes the normalized name to the recursive calls; here `Channel` is
applied at each use, which agrees by idempotence of `Channel`).  The Go
recursion has no termination measure, so the model takes fuel and
returns `none` when the recursion does not bottom out; the inter-part
`time.Sleep` has no observable effect here. -/
def sendMessage (c : Conn) (channel message : Str)
    (tags : Option (List (Str × Str))) : Nat → Option (Except Str (List Frame))
  | 0 => none
  | fuel + 1 =>
    if c.connected = false then some (.error "not connected to server".toList)
    else if IsJustinfan c.username then
      some (.error "cannot send anonymous messages".toList)
    else if 500 < message.length then
      match sendMessage c (Channel channel) (message.take (splitPoint message)) tags fuel with
      | none => none
      | some (.error e) => some (.error e)
      | some (.ok fs1) =>
        match sendMessage c (Channel channel) (message.drop (splitPoint message)) tags fuel with
        | none => none
        | some (.error e) => some (.error e)
        | some (.ok fs2) => some (.ok (fs1 ++ fs2))
    else
      some (.ok [.privmsg (tagStrOf tags) (Channel channel) message])

/-- `Client.sendCommand` from the command file. -/
def sendCommand (c : Conn) (channel command : Str)
    (tags : Option (List (Str × Str))) : Except Str (List Frame) :=
  if c.connected = false then .error "not connected to server".toList
  else if Channel channel ≠ [] then
    .ok [.privmsg (tagStrOf tags) (Channel channel) command]
  else .ok [.raw (tagStrOf tags) command]

/-- `Client.sendCommandRaw` from the command file. -/
def sendCommandRaw (c : Conn) (command : Str)
    (tags : Option (List (Str × Str))) : Except Str (List Frame) :=
  if c.connected = false then .error "not connected to server".toList
  else .ok [.raw (tagStrOf tags) command]

/-- `Client.sendCommandWithResponse` from the command file (the response
event name and timeout are carried but have no synchronous effect, as in
the source). -/
def sendCommandWithResponse (c : Conn) (channel command responseEvent : Str)
    (timeout : Nat) (tags : Option (List (Str × Str))) :
    Except Str (List Frame) :=
  if c.connected = false then .error "not connected to server".toList
  else if channel ≠ [] then sendCommand c channel command tags
  else sendCommandRaw c command tags

/-- `Client.Whisper` from the command file: refuses to whisper to the
session's own (normalized) username. -/
def Whisper (c : Conn) (username message : Str) : Except Str (List Frame) :=
  if Username username = c.username then
    .error "cannot send a whisper to the same account".toList
  else
    sendCommandWithResponse c c.globalDefaultChannel
      ("/w ".toList ++ Username username ++ ' ' :: message)
      "_promiseWhisper".toList 600000000 none

end Tmigo

namespace Tmigo

/-- C1: decoding the empty line, a line that is only an unterminated tag
block, or a line that is only an unterminated prefix yields no message;
decoding `"COMMAND"` yields a message with empty prefix, command
`"COMMAND"` and no parameters. -/
theorem C1_ParseMessage_examples :
    ParseMessage "".toList = none ∧
    ParseMessage "@onlytags".toList = none ∧
    ParseMessage ":onlyprefix".toList = none ∧
    ParseMessage "COMMAND".toList =
      some ⟨"COMMAND".toList, [], [], "COMMAND".toList, []⟩ := by
  refine ⟨rfl, rfl, rfl, rfl⟩

/-- C2: decoding badges on a tag map with `"badges" = "broadcaster/1,moderator/1"`
yields the badge map with `broadcaster = 1`, `moderator = 1` and stores the
raw string under `"badges-raw"`; decoding emotes on `"emotes" = "25:0-4,6-10"`
yields the position map `25 = [[0,4],[6,10]]`; a tag map without the
requested key is returned unchanged. -/
theorem C2_parseComplexTag_examples :
    ParseBadges [("badges".toList, .s "broadcaster/1,moderator/1".toList)] =
      [("badges".toList, .tagMap [("broadcaster".toList, .s "1".toList),
        ("moderator".toList, .s "1".toList)]),
       ("badges-raw".toList, .s "broadcaster/1,moderator/1".toList)] ∧
    ParseEmotes [("emotes".toList, .s "25:0-4,6-10".toList)] =
      [("emotes".toList, .tagMap [("25".toList, .positions [(0, 4), (6, 10)])]),
       ("emotes-raw".toList, .s "25:0-4,6-10".toList)] ∧
    ∀ (tags : TagMap) (tagKey : Str) (splA splB : Char) (splC : Option Char),
      lookupTag tags tagKey = none →
      parseComplexTag tags tagKey splA splB splC = tags := by
  refine ⟨rfl, rfl, fun tags tagKey splA splB splC h => ?_⟩
  simp only [parseComplexTag, h]

/-- C2 witness: the missing-key branch applied to a concrete map. -/
theorem C2_parseComplexTag_examples_witness :
    lookupTag [("color".toList, TagVal.s "#FF0000".toList)] "badges".toList = none ∧
    parseComplexTag [("color".toList, TagVal.s "#FF0000".toList)]
      "badges".toList ',' '/' none =
      [("color".toList, TagVal.s "#FF0000".toList)] :=
  ⟨rfl, C2_parseComplexTag_examples.2.2 _ _ ',' '/' none rfl⟩

theorem unescapeLoop_of_no_backslash :
    ∀ l : Str, l.contains '\\' = false → unescapeLoop l false = l
  | [], _ => rfl
  | c :: rest, h => by
    simp only [List.contains_cons, Bool.or_eq_false_iff, beq_eq_false_iff_ne] at h
    simp only [unescapeLoop]
    rw [if_neg h.1.symm]
    exact congrArg (c :: ·) (unescapeLoop_of_no_backslash rest h.2)

theorem UnescapeIRC_eq_unescapeLoop (l : Str) :
    UnescapeIRC l = unescapeLoop l false := by
  unfold UnescapeIRC
  split
  · next h =>
    rcases h with h | h
    · subst h; rfl
    · exact (unescapeLoop_of_no_backslash l (by simpa using h)).symm
  · rfl

theorem EscapeIRC_eq_foldr (l : Str) :
    EscapeIRC l = l.foldr (fun c acc => escapeChar c ++ acc) [] := by
  cases l <;> rfl

theorem unescapeLoop_escapeChar (c : Char) (E : Str) :
    unescapeLoop (escapeChar c ++ E) false =
      (if c = '\n' ∨ c = '\r' then [] else [c]) ++ unescapeLoop E false := by
  by_cases h1 : c = ' '
  · subst h1; simp [escapeChar, ircUnescapedChar, unescapeLoop, ircEscapedChar]
  by_cases h2 : c = '\n'
  · subst h2; simp [escapeChar, ircUnescapedChar, unescapeLoop, ircEscapedChar]
  by_cases h3 : c = ';'
  · subst h3; simp [escapeChar, ircUnescapedChar, unescapeLoop, ircEscapedChar]
  by_cases h4 : c = '\r'
  · subst h4; simp [escapeChar, ircUnescapedChar, unescapeLoop, ircEscapedChar]
  by_cases h5 : c = '\\'
  · subst h5; simp [escapeChar, ircUnescapedChar, unescapeLoop, ircEscapedChar]
  · have hesc : escapeChar c = [c] := by
      simp [escapeChar, ircUnescapedChar, h1, h2, h3, h4, h5]
    rw [hesc]
    simp [unescapeLoop, h2, h4, h5]

/-- C3: escaping then unescaping is the identity on strings free of
carriage-return and line-feed; the escape sequences for those two
characters unescape to the empty string (lossy by design); and an
unrecognized escape sequence drops the backslash and keeps the following
character. -/
theorem C3_escape_unescape_roundtrip :
    (∀ v : Str, '\r' ∉ v → '\n' ∉ v → UnescapeIRC (EscapeIRC v) = v) ∧
    UnescapeIRC ['\\', 'n'] = [] ∧
    UnescapeIRC ['\\', 'r'] = [] ∧
    (∀ (c : Char) (rest : Str), ircEscapedChar c = none →
      UnescapeIRC ('\\' :: c :: rest) = c :: UnescapeIRC rest) := by
  refine ⟨fun v hr hn => ?_, by decide, by decide, fun c rest h => ?_⟩
  · rw [EscapeIRC_eq_foldr, UnescapeIRC_eq_unescapeLoop]
    induction v with
    | nil => rfl
    | cons c rest ih =>
      simp only [List.foldr_cons]
      rw [unescapeLoop_escapeChar]
      have hc : ¬(c = '\n' ∨ c = '\r') := by
        rintro (h | h) <;> subst h
        · exact hn (List.mem_cons_self _ _)
        · exact hr (List.mem_cons_self _ _)
      rw [if_neg hc]
      simp only [List.cons_append, List.nil_append, List.cons.injEq, true_and]
      exact ih (fun m => hr (List.mem_cons_of_mem _ m))
        (fun m => hn (List.mem_cons_of_mem _ m))
  · rw [UnescapeIRC_eq_unescapeLoop, UnescapeIRC_eq_unescapeLoop]
    simp [unescapeLoop, h]

/-- C3 witness: the round-trip at a concrete CR/LF-free string and the
unrecognized-escape rule at `\x`. -/
theorem C3_escape_unescape_roundtrip_witness :
    ('\r' ∉ "ab c;d\\e".toList ∧ '\n' ∉ "ab c;d\\e".toList ∧
      UnescapeIRC (EscapeIRC "ab c;d\\e".toList) = "ab c;d\\e".toList) ∧
    (ircEscapedChar 'x' = none ∧
      UnescapeIRC ('\\' :: 'x' :: "yz".toList) = 'x' :: UnescapeIRC "yz".toList) :=
  ⟨⟨by decide, by decide,
     C3_escape_unescape_roundtrip.1 _ (by decide) (by decide)⟩,
   ⟨by decide, C3_escape_unescape_roundtrip.2.2.2 'x' _ (by decide)⟩⟩

theorem toNat_ofNat_interval (n : Nat) (h1 : 97 ≤ n) (h2 : n ≤ 122) :
    (Char.ofNat n).toNat = n := by
  interval_cases n <;> decide

theorem goToLowerChar_toNat {c : Char} (h : 65 ≤ c.toNat ∧ c.toNat ≤ 90) :
    (goToLowerChar c).toNat = c.toNat + 32 := by
  rw [goToLowerChar, if_pos h]
  exact toNat_ofNat_interval _ (by omega) (by omega)

theorem goToLowerChar_of_not_upper {c : Char}
    (h : ¬(65 ≤ c.toNat ∧ c.toNat ≤ 90)) : goToLowerChar c = c := by
  rw [goToLowerChar, if_neg h]

theorem goToLowerChar_idem (c : Char) :
    goToLowerChar (goToLowerChar c) = goToLowerChar c := by
  by_cases h : 65 ≤ c.toNat ∧ c.toNat ≤ 90
  · have ht := goToLowerChar_toNat h
    exact goToLowerChar_of_not_upper (by rw [ht]; omega)
  · rw [goToLowerChar_of_not_upper h, goToLowerChar_of_not_upper h]

theorem goIsSpace_goToLowerChar (c : Char) :
    goIsSpace (goToLowerChar c) = goIsSpace c := by
  by_cases h : 65 ≤ c.toNat ∧ c.toNat ≤ 90
  · have ht := goToLowerChar_toNat h
    simp only [goIsSpace, ht]
    rw [Bool.eq_iff_iff]
    simp only [Bool.or_eq_true, beq_iff_eq]
    omega
  · rw [goToLowerChar_of_not_upper h]

theorem goToLower_idem (l : Str) : goToLower (goToLower l) = goToLower l := by
  simp only [goToLower, List.map_map]
  exact congrFun (congrArg List.map (funext goToLowerChar_idem)) l

theorem dropWhile_goToLower (l : Str) :
    (goToLower l).dropWhile goIsSpace = goToLower (l.dropWhile goIsSpace) := by
  induction l with
  | nil => rfl
  | cons c rest ih =>
    simp only [goToLower, List.map_cons]
    cases hp : goIsSpace c
    · rw [List.dropWhile_cons_of_neg (by rw [goIsSpace_goToLowerChar]; simp [hp]),
        List.dropWhile_cons_of_neg (by simp [hp]), List.map_cons]
    · rw [List.dropWhile_cons_of_pos (by rw [goIsSpace_goToLowerChar]; exact hp),
        List.dropWhile_cons_of_pos hp]
      exact ih

theorem rdropWhile_goToLower (l : Str) :
    List.rdropWhile goIsSpace (goToLower l) =
      goToLower (List.rdropWhile goIsSpace l) := by
  calc List.rdropWhile goIsSpace (goToLower l)
      = ((goToLower l).reverse.dropWhile goIsSpace).reverse := rfl
    _ = ((goToLower l.reverse).dropWhile goIsSpace).reverse := by
        rw [show (goToLower l).reverse = goToLower l.reverse from
          (List.map_reverse _ _).symm]
    _ = (goToLower (l.reverse.dropWhile goIsSpace)).reverse := by
        rw [dropWhile_goToLower]
    _ = goToLower ((l.reverse.dropWhile goIsSpace).reverse) :=
        (List.map_reverse _ _).symm
    _ = goToLower (List.rdropWhile goIsSpace l) := rfl

theorem goTrimSpace_goToLower (l : Str) :
    goTrimSpace (goToLower l) = goToLower (goTrimSpace l) := by
  unfold goTrimSpace
  rw [dropWhile_goToLower, rdropWhile_goToLower]

theorem head_not_of_dropWhile_eq_self {p : Char → Bool} {c : Char} {rest : Str}
    (h : List.dropWhile p (c :: rest) = c :: rest) : p c = false := by
  cases hp : p c
  · rfl
  · rw [List.dropWhile_cons_of_pos hp] at h
    have hlen := (List.dropWhile_suffix (l := rest) p).length_le
    rw [h] at hlen
    simp at hlen

theorem trim_fix_dropWhile {l : Str} (h : goTrimSpace l = l) :
    l.dropWhile goIsSpace = l := by
  have h1 : (l.dropWhile goIsSpace).length ≤ l.length :=
    (List.dropWhile_suffix _).length_le
  have h2 : (goTrimSpace l).length ≤ (l.dropWhile goIsSpace).length :=
    (List.rdropWhile_prefix _ _).length_le
  rw [h] at h2
  exact (List.dropWhile_suffix _).sublist.eq_of_length (le_antisymm h1 h2)

theorem trim_fix_rdropWhile {l : Str} (h : goTrimSpace l = l) :
    List.rdropWhile goIsSpace l = l := by
  have hd := trim_fix_dropWhile h
  unfold goTrimSpace at h
  rw [hd] at h
  exact h

theorem goTrimSpace_idem (l : Str) :
    goTrimSpace (goTrimSpace l) = goTrimSpace l := by
  have hr : List.rdropWhile goIsSpace (goTrimSpace l) = goTrimSpace l :=
    List.rdropWhile_idempotent _ _
  have hd : (goTrimSpace l).dropWhile goIsSpace = goTrimSpace l := by
    obtain ⟨s, hs⟩ := List.rdropWhile_prefix goIsSpace (l.dropWhile goIsSpace)
    rcases ht : goTrimSpace l with _ | ⟨c, t'⟩
    · rfl
    · rw [show List.rdropWhile goIsSpace (l.dropWhile goIsSpace) = goTrimSpace l
          from rfl, ht] at hs
      have hidem := List.dropWhile_idempotent (l := l) (p := goIsSpace)
      rw [← hs, List.cons_append] at hidem
      exact List.dropWhile_cons_of_neg (by simp [head_not_of_dropWhile_eq_self hidem])
  show List.rdropWhile goIsSpace ((goTrimSpace l).dropWhile goIsSpace) = goTrimSpace l
  rw [hd]
  exact hr

theorem goTrimSpace_cons_hash {l : Str} (h : goTrimSpace l = l) :
    goTrimSpace ('#' :: l) = '#' :: l := by
  unfold goTrimSpace
  rw [List.dropWhile_cons_of_neg (by decide)]
  apply List.rdropWhile_eq_self_iff.mpr
  intro hne
  rcases l with _ | ⟨x, xs⟩
  · simpa using (by decide : goIsSpace '#' = false)
  · rw [List.getLast_cons (by simp)]
    exact List.rdropWhile_eq_self_iff.mp (trim_fix_rdropWhile h) (by simp)

theorem Channel_of_fix {l : Str} (ht : goTrimSpace l = l)
    (hl : goToLower l = l) (hh : l.head? = some '#') : Channel l = l := by
  simp only [Channel, ht, hl]
  rw [if_neg (by rintro rfl; simp at hh), if_pos hh]

theorem Channel_fix (s : Str) :
    goTrimSpace (Channel s) = Channel s ∧
    goToLower (Channel s) = Channel s ∧
    (Channel s).head? = some '#' := by
  have htrim : goTrimSpace (goToLower (goTrimSpace s)) = goToLower (goTrimSpace s) := by
    rw [goTrimSpace_goToLower, goTrimSpace_idem]
  have hlow : goToLower (goToLower (goTrimSpace s)) = goToLower (goTrimSpace s) :=
    goToLower_idem _
  simp only [Channel]
  split_ifs with h1 h2
  · exact ⟨by decide, by decide, rfl⟩
  · exact ⟨htrim, hlow, h2⟩
  · refine ⟨goTrimSpace_cons_hash htrim, ?_, rfl⟩
    simp only [goToLower, List.map_cons] at hlow ⊢
    rw [show goToLowerChar '#' = '#' by decide, hlow]

theorem Username_lower (s : Str) : goToLower (Username s) = Username s := by
  have hlow : goToLower (goToLower (goTrimSpace s)) = goToLower (goTrimSpace s) :=
    goToLower_idem _
  simp only [Username]
  split_ifs with h1 h2
  · rfl
  · rcases hc : goToLower (goTrimSpace s) with _ | ⟨c, r⟩
    · rfl
    · rw [hc] at hlow
      simp only [goToLower, List.map_cons, List.cons.injEq] at hlow
      simpa [goToLower] using hlow.2
  · exact hlow

/-- C9 counterexample: `Username` is not idempotent — on `"##a"` one
application yields `"#a"`, a second application yields `"a"`. -/
theorem C9_Username_not_idempotent :
    Username (Username "##a".toList) ≠ Username "##a".toList := by decide

/-- C9 (amended): `Channel` is idempotent on every string; `Username` is
idempotent on every input whose normalized result does not itself start
with the `#` marker and carries no leading or trailing whitespace (the
counterexample `"##a"` forces this restriction). -/
theorem C9_normalization_idempotent_amended :
    (∀ s : Str, Channel (Channel s) = Channel s) ∧
    (∀ s : Str, (Username s).head? ≠ some '#' →
      goTrimSpace (Username s) = Username s →
      Username (Username s) = Username s) := by
  constructor
  · intro s
    obtain ⟨ht, hl, hh⟩ := Channel_fix s
    exact Channel_of_fix ht hl hh
  · intro s hh ht
    have hlow := Username_lower s
    by_cases hu : Username s = []
    · rw [hu]; decide
    · conv_lhs => rw [Username]
      simp only [ht, hlow]
      rw [if_neg hu, if_neg hh]

/-- C9 witness: both halves of the amended idempotence statement at
concrete inputs. -/
theorem C9_normalization_idempotent_amended_witness :
    Channel (Channel " FooBar ".toList) = Channel " FooBar ".toList ∧
    ((Username " FooBar ".toList).head? ≠ some '#' ∧
      goTrimSpace (Username " FooBar ".toList) = Username " FooBar ".toList ∧
      Username (Username " FooBar ".toList) = Username " FooBar ".toList) :=
  ⟨C9_normalization_idempotent_amended.1 _,
   by decide, by decide,
   C9_normalization_idempotent_amended.2 _ (by decide) (by decide)⟩

/-- C5: the dispatcher's tag normalization maps, for every key other
than emote-sets, ban-duration and bits: boolean true to nil, the string
`"1"` to true, `"0"` to false, and any other string to its unescaped
form; the three exempted keys keep their values unchanged. -/
theorem C5_tag_normalization :
    (∀ key : Str,
      ¬(key = "emote-sets".toList ∨ key = "ban-duration".toList ∨
        key = "bits".toList) →
      transformTagValue key (.b true) = .null ∧
      transformTagValue key (.s "1".toList) = .b true ∧
      transformTagValue key (.s "0".toList) = .b false ∧
      (∀ v : Str, v ≠ "1".toList → v ≠ "0".toList →
        transformTagValue key (.s v) = .s (UnescapeIRC v))) ∧
    (∀ v : TagVal,
      transformTagValue "emote-sets".toList v = v ∧
      transformTagValue "ban-duration".toList v = v ∧
      transformTagValue "bits".toList v = v) := by
  constructor
  · intro key hk
    refine ⟨?_, ?_, ?_, fun v hv1 hv2 => ?_⟩
    · simp only [transformTagValue, if_neg hk]
    · simp only [transformTagValue, if_neg hk]; rfl
    · simp only [transformTagValue, if_neg hk]; rfl
    · simp only [transformTagValue, if_neg hk]
      rw [if_neg hv1, if_neg hv2]
  · intro v
    refine ⟨?_, ?_, ?_⟩ <;> simp [transformTagValue]

/-- C5 witness: the normalization at the concrete key `"subscriber"` and
a concrete other-string value. -/
theorem C5_tag_normalization_witness :
    (¬("subscriber".toList = "emote-sets".toList ∨
       "subscriber".toList = "ban-duration".toList ∨
       "subscriber".toList = "bits".toList)) ∧
    transformTagValue "subscriber".toList (.b true) = .null ∧
    transformTagValue "subscriber".toList (.s "1".toList) = .b true ∧
    transformTagValue "subscriber".toList (.s "0".toList) = .b false ∧
    ("red\\sname".toList ≠ "1".toList ∧ "red\\sname".toList ≠ "0".toList ∧
      transformTagValue "subscriber".toList (.s "red\\sname".toList) =
        .s (UnescapeIRC "red\\sname".toList)) :=
  ⟨by decide,
   (C5_tag_normalization.1 _ (by decide)).1,
   (C5_tag_normalization.1 _ (by decide)).2.1,
   (C5_tag_normalization.1 _ (by decide)).2.2.1,
   by decide, by decide,
   (C5_tag_normalization.1 _ (by decide)).2.2.2 _ (by decide) (by decide)⟩

theorem lookup_delEvents {α : Type} (m : List (Str × List α)) (key : Str) :
    lookupEvents (delEvents m key) key = none := by
  induction m with
  | nil => rfl
  | cons kv rest ih =>
    obtain ⟨k, v⟩ := kv
    by_cases hk : k = key
    · simpa [delEvents, hk] using ih
    · simpa [delEvents, lookupEvents, hk] using ih

/-- C10: `RemoveListener` (and its alias `Off`) deletes every handler
registered under the event name, so the listener count drops to zero no
matter which handler was passed or how many were registered. -/
theorem C10_RemoveListener_removes_all :
    ∀ (α : Type) (e : EventEmitter α) (eventType : Str) (listener : α),
      e.Off eventType listener = e.RemoveListener eventType listener ∧
      (e.RemoveListener eventType listener).ListenerCount eventType = 0 := by
  intro α e t l
  refine ⟨rfl, ?_⟩
  unfold EventEmitter.RemoveListener
  cases h : lookupEvents e.events t with
  | none => simp [EventEmitter.ListenerCount, h]
  | some ls => simp [EventEmitter.ListenerCount, lookup_delEvents]

theorem Queue.Next_at_end {α : Type} (q : Queue α)
    (h : q.queue.length ≤ q.index) : q.Next = (q, none, none) := by
  unfold Queue.Next
  rw [dif_neg (by omega)]

theorem Queue.Next_eq_of_lt {α : Type} (q : Queue α)
    (h : q.index < q.queue.length) :
    q.Next = ({ q with index := q.index + 1 },
      some (q.queue.get ⟨q.index, h⟩).1,
      if h2 : q.index + 1 < q.queue.length then
        some (if (q.queue.get ⟨q.index + 1, h2⟩).2 = 0 then q.defaultDelay
          else (q.queue.get ⟨q.index + 1, h2⟩).2)
      else none) := by
  unfold Queue.Next
  rw [dif_pos h]
  by_cases h2 : q.index + 1 < q.queue.length
  · rw [dif_pos h2, dif_pos h2]
  · rw [dif_neg h2, dif_neg h2]

theorem Queue.runNext_drains {α : Type} :
    ∀ (n : Nat) (q : Queue α), q.index ≤ q.queue.length →
      q.queue.length - q.index = n →
      Queue.runNext q n =
        ({ q with index := q.queue.length },
          (q.queue.drop q.index).map Prod.fst) := by
  intro n
  induction n with
  | zero =>
    intro q h hn
    have hi : q.index = q.queue.length := by omega
    have h1 : ({ q with index := q.queue.length } : Queue α) = q := by
      rw [← hi]
    have h2 : q.queue.drop q.index = [] := by
      rw [hi]; exact List.drop_length _
    rw [h1, h2]
    rfl
  | succ n ih =>
    intro q h hn
    have hlt : q.index < q.queue.length := by omega
    simp only [Queue.runNext, Queue.Next_eq_of_lt q hlt]
    rw [ih { q with index := q.index + 1 } (by simp; omega) (by simp; omega)]
    rw [List.drop_eq_getElem_cons hlt, List.map_cons, List.get_eq_getElem]

/-- C4: `Add` appends an item without moving the cursor; `Next` past the
end is a no-op returning the state unchanged; `Next` with items
remaining executes exactly the cursor item, advances the cursor by one,
and arms the follow-up timer precisely when another item remains; and
iterating the advance step executes the whole remaining sequence in
insertion order. -/
theorem C4_queue_behavior :
    (∀ (α : Type) (q : Queue α) (fn : α) (delay : Option Nat),
      (q.Add fn delay).queue = q.queue ++ [(fn, delay.getD 0)] ∧
      (q.Add fn delay).index = q.index) ∧
    (∀ (α : Type) (q : Queue α), q.queue.length ≤ q.index →
      q.Next = (q, none, none)) ∧
    (∀ (α : Type) (q : Queue α) (h : q.index < q.queue.length),
      (q.Next).1 = { q with index := q.index + 1 } ∧
      (q.Next).2.1 = some (q.queue.get ⟨q.index, h⟩).1 ∧
      ((q.Next).2.2.isSome = true ↔ q.index + 1 < q.queue.length)) ∧
    (∀ (α : Type) (q : Queue α), q.index ≤ q.queue.length →
      Queue.runNext q (q.queue.length - q.index) =
        ({ q with index := q.queue.length },
          (q.queue.drop q.index).map Prod.fst)) := by
  refine ⟨fun α q fn delay => ⟨rfl, rfl⟩,
    fun α q h => Queue.Next_at_end q h,
    fun α q h => ?_,
    fun α q h => Queue.runNext_drains _ q h rfl⟩
  rw [Queue.Next_eq_of_lt q h]
  refine ⟨rfl, rfl, ?_⟩
  by_cases h2 : q.index + 1 < q.queue.length
  · rw [dif_pos h2]; simp [h2]
  · rw [dif_neg h2]; simp [h2]

/-- C4 witness: the queue behavior at a concrete two-item queue. -/
theorem C4_queue_behavior_witness :
    ((Queue.Add ⟨[(10, 0), (20, 5)], 0, 7⟩ 30 none).queue =
        [(10, 0), (20, 5), (30, 0)] ∧
      (Queue.Add ⟨[(10, 0), (20, 5)], 0, 7⟩ 30 none).index = 0) ∧
    ((2 : Nat) ≤ 2 ∧
      Queue.Next (⟨[(10, 0), (20, 5)], 2, 7⟩ : Queue Nat) =
        (⟨[(10, 0), (20, 5)], 2, 7⟩, none, none)) ∧
    ((0 : Nat) < 2 ∧
      (Queue.Next (⟨[(10, 0), (20, 5)], 0, 7⟩ : Queue Nat)).1 =
        ⟨[(10, 0), (20, 5)], 1, 7⟩) ∧
    ((0 : Nat) ≤ 2 ∧
      Queue.runNext (⟨[(10, 0), (20, 5)], 0, 7⟩ : Queue Nat) 2 =
        (⟨[(10, 0), (20, 5)], 2, 7⟩, [10, 20])) := by
  refine ⟨⟨(C4_queue_behavior.1 Nat _ 30 none).1,
      (C4_queue_behavior.1 Nat _ 30 none).2⟩,
    ⟨by decide, C4_queue_behavior.2.1 Nat _ (by decide)⟩,
    ⟨by decide, ?_⟩,
    ⟨by decide, ?_⟩⟩
  · exact (C4_queue_behavior.2.2.1 Nat ⟨[(10, 0), (20, 5)], 0, 7⟩
      (by decide)).1
  · exact C4_queue_behavior.2.2.2 Nat ⟨[(10, 0), (20, 5)], 0, 7⟩ (by decide)

theorem stopTimer_ne_running (t : Option Bool) : stopTimer t ≠ some true := by
  cases t <;> simp [stopTimer]

/-- C6: the failure path always clears the moderator sets, the per-room
user-state map and the global user state, stops both keep-alive timers,
and emits a disconnected event with the computed reason first; when
reconnecting is enabled (as `NewClient` always forces) and the close was
not requested and attempts remain, it increments the attempt counter,
also emits a reconnect event, and schedules a connect after the current
backoff interval; once the maximum attempt count is reached it instead
emits the terminal maxreconnect event and schedules nothing. -/
theorem C6_handleError_spec :
    ∀ (err : Option Str) (s : ClientState),
      ((handleError err s).1.moderators = [] ∧
       (handleError err s).1.userState = [] ∧
       (handleError err s).1.globalUserState = emptyGlobalUserState ∧
       (handleError err s).1.pingLoop ≠ some true ∧
       (handleError err s).1.pingTimeout ≠ some true ∧
       (handleError err s).1.wsConnected = false ∧
       (handleError err s).2.1.head? =
         some (.disconnected (disconnectReason err))) ∧
      (s.reconnect = true → s.wasCloseCalled = false →
        s.reconnections < s.maxReconnectAttempts →
        (handleError err s).1.reconnections = s.reconnections + 1 ∧
        (handleError err s).2.1 =
          [.disconnected (disconnectReason err), .reconnect] ∧
        (handleError err s).2.2 = some s.reconnectTimer) ∧
      (s.maxReconnectAttempts ≤ s.reconnections →
        (handleError err s).2.1 =
          [.disconnected (disconnectReason err), .maxreconnect] ∧
        (handleError err s).2.2 = none) := by
  intro err s
  unfold handleError
  dsimp only
  split_ifs with h1 h2
  · exact ⟨⟨rfl, rfl, rfl, stopTimer_ne_running _, stopTimer_ne_running _,
      rfl, rfl⟩,
      fun _ _ _ => ⟨rfl, rfl, rfl⟩,
      fun hmax => absurd h1.2.1 (by omega)⟩
  · refine ⟨⟨rfl, rfl, rfl, stopTimer_ne_running _, stopTimer_ne_running _,
      rfl, rfl⟩,
      fun hr hw hlt => absurd ⟨hr, hlt, hw⟩ h1,
      fun _ => ⟨rfl, rfl⟩⟩
  · exact ⟨⟨rfl, rfl, rfl, stopTimer_ne_running _, stopTimer_ne_running _,
      rfl, rfl⟩,
      fun hr hw hlt => absurd ⟨hr, hlt, hw⟩ h1,
      fun hmax => absurd hmax h2⟩

/-- C6 witness: the failure path applied to a concrete state on the
retry branch and to one that has exhausted its attempts. -/
theorem C6_handleError_spec_witness :
    (let s : ClientState :=
      { wsConnected := true, reconnecting := false, reconnections := 2
        reconnectTimer := 1500, wasCloseCalled := false
        reason := [], pingLoop := some true, pingTimeout := some true
        maxReconnectAttempts := 5, reconnect := true
        moderators := [("#chan".toList, ["mod1".toList])]
        userState := []
        globalUserState := emptyGlobalUserState }
     (handleError none s).1.moderators = [] ∧
     (handleError none s).1.reconnections = 3 ∧
     (handleError none s).2.1 =
       [.disconnected "Connection closed.".toList, .reconnect] ∧
     (handleError none s).2.2 = some 1500) ∧
    (let s2 : ClientState :=
      { wsConnected := true, reconnecting := false, reconnections := 5
        reconnectTimer := 1500, wasCloseCalled := false
        reason := [], pingLoop := none, pingTimeout := none
        maxReconnectAttempts := 5, reconnect := true
        moderators := [], userState := []
        globalUserState := emptyGlobalUserState }
     (handleError (some "eof".toList) s2).2.1 =
       [.disconnected ("Unable to connect: eof".toList), .maxreconnect] ∧
     (handleError (some "eof".toList) s2).2.2 = none) := by
  refine ⟨⟨(C6_handleError_spec none _).1.1, ?_, ?_, ?_⟩, ?_, ?_⟩
  · exact ((C6_handleError_spec none _).2.1 rfl rfl (by decide)).1
  · exact ((C6_handleError_spec none _).2.1 rfl rfl (by decide)).2.1
  · exact ((C6_handleError_spec none _).2.1 rfl rfl (by decide)).2.2
  · exact ((C6_handleError_spec (some "eof".toList) _).2.2 (by decide)).1
  · exact ((C6_handleError_spec (some "eof".toList) _).2.2 (by decide)).2

/-- C7: every outbound operation invoked while disconnected returns the
"not connected" error and emits no frame; chat sending additionally
fails on an anonymous (justinfan) session; and `Whisper` fails when the
normalized target equals the session's own username. -/
theorem C7_outbound_guards :
    (∀ (c : Conn) (ch msg : Str) (tags : Option (List (Str × Str)))
        (fuel : Nat), c.connected = false →
      sendMessage c ch msg tags (fuel + 1) =
        some (.error "not connected to server".toList)) ∧
    (∀ (c : Conn) (ch cmd : Str) (tags : Option (List (Str × Str))),
      c.connected = false →
      sendCommand c ch cmd tags = .error "not connected to server".toList) ∧
    (∀ (c : Conn) (cmd : Str) (tags : Option (List (Str × Str))),
      c.connected = false →
      sendCommandRaw c cmd tags = .error "not connected to server".toList) ∧
    (∀ (c : Conn) (ch cmd respEvent : Str) (tmo : Nat)
        (tags : Option (List (Str × Str))), c.connected = false →
      sendCommandWithResponse c ch cmd respEvent tmo tags =
        .error "not connected to server".toList) ∧
    (∀ (c : Conn) (ch msg : Str) (tags : Option (List (Str × Str)))
        (fuel : Nat), c.connected = true → IsJustinfan c.username = true →
      sendMessage c ch msg tags (fuel + 1) =
        some (.error "cannot send anonymous messages".toList)) ∧
    (∀ (c : Conn) (u msg : Str), Username u = c.username →
      Whisper c u msg =
        .error "cannot send a whisper to the same account".toList) := by
  refine ⟨fun c ch msg tags fuel h => ?_, fun c ch cmd tags h => ?_,
    fun c cmd tags h => ?_, fun c ch cmd respEvent tmo tags h => ?_,
    fun c ch msg tags fuel hc hj => ?_, fun c u msg h => ?_⟩
  · rw [sendMessage, if_pos h]
  · rw [sendCommand, if_pos h]
  · rw [sendCommandRaw, if_pos h]
  · rw [sendCommandWithResponse, if_pos h]
  · rw [sendMessage, if_neg (by simp [hc]), if_pos hj]
  · rw [Whisper, if_pos h]

/-- C7 witness: a disconnected client, an anonymous session, and a
self-whisper, each at concrete values. -/
theorem C7_outbound_guards_witness :
    ((⟨false, "bot".toList, "#tmijs".toList⟩ : Conn).connected = false ∧
      sendMessage ⟨false, "bot".toList, "#tmijs".toList⟩ "#c".toList
        "hi".toList none 1 =
        some (.error "not connected to server".toList) ∧
      sendCommand ⟨false, "bot".toList, "#tmijs".toList⟩ "#c".toList
        "/clear".toList none = .error "not connected to server".toList ∧
      sendCommandRaw ⟨false, "bot".toList, "#tmijs".toList⟩ "PING".toList
        none = .error "not connected to server".toList ∧
      sendCommandWithResponse ⟨false, "bot".toList, "#tmijs".toList⟩
        "#c".toList "/mods".toList "_promiseMods".toList 600 none =
        .error "not connected to server".toList) ∧
    ((⟨true, "justinfan123".toList, "#tmijs".toList⟩ : Conn).connected = true ∧
      IsJustinfan "justinfan123".toList = true ∧
      sendMessage ⟨true, "justinfan123".toList, "#tmijs".toList⟩
        "#c".toList "hi".toList none 1 =
        some (.error "cannot send anonymous messages".toList)) ∧
    (Username "BOT ".toList = "bot".toList ∧
      Whisper ⟨true, "bot".toList, "#tmijs".toList⟩ "BOT ".toList
        "hey".toList = .error "cannot send a whisper to the same account".toList) :=
  ⟨⟨rfl,
    C7_outbound_guards.1 _ _ _ none 0 rfl,
    C7_outbound_guards.2.1 _ _ _ none rfl,
    C7_outbound_guards.2.2.1 _ _ none rfl,
    C7_outbound_guards.2.2.2.1 _ _ _ _ 600 none rfl⟩,
   ⟨rfl, by decide,
    C7_outbound_guards.2.2.2.2.1 _ _ _ none 0 rfl (by decide)⟩,
   ⟨by decide,
    C7_outbound_guards.2.2.2.2.2 _ _ _ (by decide)⟩⟩

theorem lastIndexOf_lt_length {c : Char} :
    ∀ {l : Str} {i : Nat}, lastIndexOf c l = some i → i < l.length := by
  intro l
  induction l with
  | nil => intro i h; exact absurd h (by simp [lastIndexOf])
  | cons x xs ih =>
    intro i h
    rw [lastIndexOf] at h
    cases hx : lastIndexOf c xs with
    | some j =>
      rw [hx] at h
      obtain rfl : j + 1 = i := by simpa using h
      have := ih hx
      simp only [List.length_cons]
      omega
    | none =>
      rw [hx] at h
      by_cases hxc : x = c
      · rw [if_pos hxc] at h
        obtain rfl : 0 = i := by simpa using h
        simp
      · rw [if_neg hxc] at h
        exact absurd h (by simp)

theorem splitPoint_le (msg : Str) : splitPoint msg ≤ 500 := by
  unfold splitPoint
  cases h : lastIndexOf ' ' (msg.take 500) with
  | none => simp
  | some i =>
    dsimp only
    have h1 := lastIndexOf_lt_length h
    have h2 : (msg.take 500).length ≤ 500 := by
      simp [List.length_take]
    omega

theorem sendMessage_short {c : Conn} {ch msg : Str}
    {tags : Option (List (Str × Str))} (fuel : Nat)
    (hc : c.connected = true) (hj : IsJustinfan c.username = false)
    (hlen : ¬ 500 < msg.length) :
    sendMessage c ch msg tags (fuel + 1) =
      some (.ok [.privmsg (tagStrOf tags) (Channel ch) msg]) := by
  rw [sendMessage, if_neg (by simp [hc]), if_neg (by simp [hj]), if_neg hlen]

theorem sendMessage_ok_spec :
    ∀ (fuel : Nat) (c : Conn) (ch msg : Str)
      (tags : Option (List (Str × Str))) (frames : List Frame),
      sendMessage c ch msg tags fuel = some (.ok frames) →
      (frames.map frameText).flatten = msg ∧
      frames ≠ [] ∧
      (∀ f ∈ frames, (frameText f).length ≤ 500) ∧
      (500 < msg.length → 2 ≤ frames.length ∧
        frames.head?.map frameText = some (msg.take (splitPoint msg))) := by
  intro fuel
  induction fuel with
  | zero =>
    intro c ch msg tags frames h
    exact absurd h (by simp [sendMessage])
  | succ fuel ih =>
    intro c ch msg tags frames h
    rw [sendMessage] at h
    by_cases hc : c.connected = false
    · rw [if_pos hc] at h; exact absurd h (by simp)
    rw [if_neg hc] at h
    by_cases hj : IsJustinfan c.username = true
    · rw [if_pos hj] at h; exact absurd h (by simp)
    rw [if_neg hj] at h
    by_cases hlen : 500 < msg.length
    · rw [if_pos hlen] at h
      rcases fuel with _ | f
      · rw [show sendMessage c (Channel ch) (msg.take (splitPoint msg))
            tags 0 = none from rfl] at h
        exact absurd h (by simp)
      · have hc' : c.connected = true := by
          revert hc; cases c.connected <;> simp
        have hj' : IsJustinfan c.username = false := by
          revert hj; cases IsJustinfan c.username <;> simp
        have hp : ¬ 500 < (msg.take (splitPoint msg)).length := by
          have := splitPoint_le msg
          simp only [List.length_take, not_lt]
          omega
        rw [sendMessage_short f hc' hj' hp] at h
        dsimp only at h
        cases h2 : sendMessage c (Channel ch) (msg.drop (splitPoint msg))
            tags (f + 1) with
        | none => rw [h2] at h; exact absurd h (by simp)
        | some r =>
          cases r with
          | error e => rw [h2] at h; exact absurd h (by simp)
          | ok fs2 =>
            rw [h2] at h
            dsimp only at h
            have hframes : frames =
                Frame.privmsg (tagStrOf tags) (Channel (Channel ch))
                  (msg.take (splitPoint msg)) :: fs2 := by
              have := Option.some.inj h
              have := Except.ok.inj this
              simpa using this.symm
            obtain ⟨j2, ne2, len2, _⟩ :=
              ih c (Channel ch) (msg.drop (splitPoint msg)) tags fs2 h2
            subst hframes
            have hfs2len : 1 ≤ fs2.length := by
              cases fs2 with
              | nil => exact absurd rfl ne2
              | cons a b => simp
            refine ⟨?_, by simp, ?_, fun _ => ⟨by simp; omega, by simp [frameText]⟩⟩
            · simp only [List.map_cons, frameText, List.flatten_cons, j2]
              exact List.take_append_drop _ _
            · intro f hf
              rcases List.mem_cons.mp hf with rfl | hf2
              · simp only [frameText, List.length_take]
                have := splitPoint_le msg
                omega
              · exact len2 f hf2
    · rw [if_neg hlen] at h
      have hframes : frames =
          [Frame.privmsg (tagStrOf tags) (Channel ch) msg] := by
        have := Option.some.inj h
        have := Except.ok.inj this
        exact this.symm
      subst hframes
      refine ⟨by simp [frameText], by simp, ?_, fun hbig => absurd hbig hlen⟩
      intro f hf
      rcases List.mem_singleton.mp hf with rfl
      simp only [frameText]
      omega

/-- C8 (amended): whenever the splitting recursion of `sendMessage`
terminates on a message longer than 500 characters, it produces at least
two PRIVMSG frames whose texts concatenate to the original message, each
at most 500 characters, the first one cut exactly at `splitPoint` (the
last space within the first 500 characters, or 500 when there is none).
The unamended claim fails because the recursion does not terminate when
the split point is 0. -/
theorem C8_sendMessage_split_amended :
    ∀ (c : Conn) (ch msg : Str) (tags : Option (List (Str × Str)))
      (fuel : Nat) (frames : List Frame),
      sendMessage c ch msg tags fuel = some (.ok frames) →
      500 < msg.length →
      2 ≤ frames.length ∧
      (frames.map frameText).flatten = msg ∧
      (∀ f ∈ frames, (frameText f).length ≤ 500) ∧
      frames.head?.map frameText = some (msg.take (splitPoint msg)) := by
  intro c ch msg tags fuel frames h hbig
  obtain ⟨hj, _, hlen, hb⟩ := sendMessage_ok_spec fuel c ch msg tags frames h
  exact ⟨(hb hbig).1, hj, hlen, (hb hbig).2⟩

theorem sendMessage_diverges {c : Conn} {ch msg : Str}
    {tags : Option (List (Str × Str))}
    (hc : c.connected = true) (hj : IsJustinfan c.username = false)
    (hlen : 500 < msg.length) (hsp : splitPoint msg = 0)
    (hch : Channel ch = ch) :
    ∀ fuel, sendMessage c ch msg tags fuel = none := by
  intro fuel
  induction fuel with
  | zero => rfl
  | succ f ih =>
    rw [sendMessage, if_neg (by simp [hc]), if_neg (by simp [hj]),
      if_pos hlen, hsp, hch]
    simp only [List.take_zero, List.drop_zero]
    rcases f with _ | f'
    · rfl
    · rw [sendMessage_short f' hc hj (by simp), ih]

/-- C8 counterexample: for the 1200-character message consisting of a
space followed by 1199 letters, the only space of the 500-character
window is at position 0, so the sending recursion never terminates and
never produces a frame list at all — the claim fails at this input. -/
theorem C8_sendMessage_counterexample :
    ¬ ∃ (fuel : Nat) (frames : List Frame),
      sendMessage ⟨true, "bot".toList, "#tmijs".toList⟩ "#chan".toList
        (' ' :: List.replicate 1199 'a') none fuel = some (.ok frames) := by
  rintro ⟨fuel, frames, h⟩
  rw [sendMessage_diverges rfl (by decide) (by simp) (by decide) (by decide)
    fuel] at h
  exact absurd h (by simp)

/-- C8 witness: a 1200-character message with no space splits into three
frames of 500, 500 and 200 characters. -/
theorem C8_sendMessage_split_amended_witness :
    sendMessage ⟨true, "bot".toList, "#tmijs".toList⟩ "#chan".toList
        (List.replicate 1200 'a') none 4 =
      some (.ok
        [.privmsg [] "#chan".toList (List.replicate 500 'a'),
         .privmsg [] "#chan".toList (List.replicate 500 'a'),
         .privmsg [] "#chan".toList (List.replicate 200 'a')]) ∧
    500 < (List.replicate 1200 'a').length ∧
    (2 ≤ ([Frame.privmsg [] "#chan".toList (List.replicate 500 'a'),
           Frame.privmsg [] "#chan".toList (List.replicate 500 'a'),
           Frame.privmsg [] "#chan".toList (List.replicate 200 'a')].length) ∧
      (([Frame.privmsg [] "#chan".toList (List.replicate 500 'a'),
         Frame.privmsg [] "#chan".toList (List.replicate 500 'a'),
         Frame.privmsg [] "#chan".toList (List.replicate 200 'a')].map
           frameText).flatten = List.replicate 1200 'a') ∧
      (∀ f ∈ [Frame.privmsg [] "#chan".toList (List.replicate 500 'a'),
              Frame.privmsg [] "#chan".toList (List.replicate 500 'a'),
              Frame.privmsg [] "#chan".toList (List.replicate 200 'a')],
        (frameText f).length ≤ 500) ∧
      ([Frame.privmsg [] "#chan".toList (List.replicate 500 'a'),
        Frame.privmsg [] "#chan".toList (List.replicate 500 'a'),
        Frame.privmsg [] "#chan".toList (List.replicate 200 'a')].head?.map
          frameText =
        some ((List.replicate 1200 'a').take
          (splitPoint (List.replicate 1200 'a'))))) :=
  ⟨by rfl, by simp,
   C8_sendMessage_split_amended ⟨true, "bot".toList, "#tmijs".toList⟩
     "#chan".toList (List.replicate 1200 'a') none 4
     [.privmsg [] "#chan".toList (List.replicate 500 'a'),
      .privmsg [] "#chan".toList (List.replicate 500 'a'),
      .privmsg [] "#chan".toList (List.replicate 200 'a')]
     (by rfl) (by simp)⟩

end Tmigo
